import Mathlib

/-
Verification of the Plant-Growth-Analysis-Tool image pipeline.

Shallow embedding of:
  - src/src/plant_analysis/cropper.py  (crop_front_panel, the panel extractor)
  - src/src/plant_analysis/analyzer.py (PlantAnalyzer.calculate_plant_percentage,
    PlantAnalyzer.enhance_image, PlantAnalyzer.compare_images)
The legacy single-file variants in src/plant_analysis.py and src/crop.py share
the same arithmetic for the parts modelled here; where the two variants differ
(exception handling around the detector call) the packaged version under
src/src/plant_analysis is the one embedded, and the difference is noted at the
relevant theorem.

Modelling conventions:
  - An image is a list of rows of pixels; a pixel is a triple of channel
    values (numpy uint8 values are modelled as naturals, float arithmetic of
    the Python/OpenCV code as exact rationals).
  - External library primitives that the repository only calls (cv2.resize,
    cv2.cvtColor BGR to HSV, the saturation branch of enhance_image, the YOLO
    detector) are taken as explicit function parameters; everything the
    repository itself computes is translated literally.
  - numpy/Python slicing `l[a:b]` is embedded with full Python semantics,
    including the wrap-around interpretation of negative stop indices, since
    crop_front_panel can reach that case.
  - Exceptions raised by the detector or the missing-weights check are an
    `Except` input to crop_front_panel; logger calls are returned as a list of
    log events so that logging-level behaviour is visible.
-/

/-- A pixel: three channel values (BGR before conversion, HSV after). -/
abbrev Pixel : Type := ℕ × ℕ × ℕ

/-- An image: a list of rows, each row a list of pixels. -/
abbrev Image : Type := List (List Pixel)

/-- Height of an image, `img.shape[0]`. -/
def imH (img : Image) : ℕ := img.length

/-- Width of an image, `img.shape[1]` (length of the first row). -/
def imW (img : Image) : ℕ := (img.head?.getD []).length

/-- Total number of pixel entries, the analogue of `arr.size > 0` checks. -/
def imSize (img : Image) : ℕ := (img.map List.length).sum

/-- A rectangular image: every row has the common width (numpy arrays are
always rectangular). -/
abbrev IsRect (img : Image) : Prop := ∀ r ∈ img, r.length = imW img

/-- Normalise a Python slice endpoint against a sequence of length `n`:
negative indices count from the end (clamped below at 0), nonnegative ones are
clamped above at `n`. -/
def pyIdx (n : ℕ) (i : ℤ) : ℕ := if i < 0 then (i + n).toNat else min n i.toNat

/-- Python slice `l[a:b]` (step 1), with full negative-index semantics. -/
def pySlice {α : Type} (l : List α) (a b : ℤ) : List α :=
  (l.take (pyIdx l.length b)).drop (pyIdx l.length a)

/-- A detector bounding box, `box.xyxy[0].astype(int)`: signed integer pixel
coordinates, possibly outside the image. -/
structure Det where
  x1 : ℤ
  y1 : ℤ
  x2 : ℤ
  y2 : ℤ
deriving DecidableEq, Repr

/-- Sort key relation used by `detections.sort(key=lambda d: d.coords[0])`:
compare left edges. -/
def detLe (a b : Det) : Prop := a.x1 ≤ b.x1

instance : DecidableRel detLe := fun a b => inferInstanceAs (Decidable (a.x1 ≤ b.x1))

instance : IsTotal Det detLe := ⟨fun a b => le_total a.x1 b.x1⟩

instance : IsTrans Det detLe := ⟨fun _ _ _ h1 h2 => le_trans h1 h2⟩

/-- The stable sort `detections.sort(key=lambda d: d.coords[0])`; Python
list.sort is stable, as is insertion sort. -/
def sortDets (dets : List Det) : List Det := List.insertionSort detLe dets

/-- Clipped left edge `max(0, x1)` of a detection. -/
def clipX1 (d : Det) : ℤ := max 0 d.x1

/-- Lines 77-82 of cropper.py: clip the box (`x1,y1 = max(0,x1),max(0,y1)`;
`x2,y2 = min(w_img,x2),min(h_img,y2)`) and take the numpy slice
`img[y1:y2, x1:x2]`. -/
def cropDet (img : Image) (d : Det) : Image :=
  let cx1 : ℤ := max 0 d.x1
  let cy1 : ℤ := max 0 d.y1
  let cx2 : ℤ := min (imW img : ℤ) d.x2
  let cy2 : ℤ := min (imH img : ℤ) d.y2
  (pySlice img cy1 cy2).map (fun r => pySlice r cx1 cx2)

/-- Crops of the sorted detections that survive the `crop.size > 0` filter. -/
def survivingCropsOf (img : Image) (sorted : List Det) : List Image :=
  (sorted.map (cropDet img)).filter (fun c => decide (0 < imSize c))

/-- Surviving crops of a detection list, in the order the code stitches them. -/
def survivingCrops (img : Image) (dets : List Det) : List Image :=
  survivingCropsOf img (sortDets dets)

/-- Line 96 of cropper.py: `new_w = int(w * scale)` with `scale = max_h / h`,
in exact arithmetic: truncation of `w * H / h`. -/
def scaledW (w h H : ℕ) : ℕ := w * H / h

/-- The width each crop contributes after the merge step: unchanged when its
height is already `H`, else the rescaled width. -/
def scaledWFinal (H : ℕ) (c : Image) : ℕ :=
  if imH c = H then imW c else scaledW (imW c) (imH c) H

/-- Line 90 of cropper.py: `max_h = max(c.shape[0] for c in crops)`. -/
def maxHeight (crops : List Image) : ℕ := (crops.map imH).foldr max 0

/-- Lines 91-100 of cropper.py: resize every crop whose height differs from
`max_h` to `(new_w, max_h)`; `cv2.resize` itself is the parameter `resize`. -/
def resizeCrops (resize : Image → ℕ → ℕ → Image) (crops : List Image) : List Image :=
  crops.map (fun c =>
    if imH c = maxHeight crops then c
    else resize c (scaledW (imW c) (imH c) (maxHeight crops)) (maxHeight crops))

/-- The Lean counterpart of `cv2.hconcat`: concatenate images row by row. -/
def hconcat : List Image → Image
  | [] => []
  | [c] => c
  | c :: rest => List.zipWith (fun r s => r ++ s) c (hconcat rest)

/-- Severity of a logger call. -/
inductive LogLevel : Type
  | info
  | warning
  | error
deriving DecidableEq, Repr

/-- One logger call: severity and message tag. -/
structure LogEvent where
  level : LogLevel
  tag : String
deriving DecidableEq, Repr

/-- Exceptions that can escape the try-block of crop_front_panel: the
FileNotFoundError of load_model (weights missing), or a failure of the model
inference call itself. -/
inductive PyExc : Type
  | fileNotFound
  | inferenceError
deriving DecidableEq, Repr

/-- Logger call of cropper.py line 45. -/
def procLog : LogEvent := ⟨.info, "Processing image for cropping"⟩

/-- Logger call of cropper.py line 63. -/
def detectLog : LogEvent := ⟨.info, "Detected objects"⟩

/-- Logger call of cropper.py line 104. -/
def mergeLog : LogEvent := ⟨.info, "Merged detected sides"⟩

/-- Logger call of cropper.py line 57 (the except-branch). -/
def inferFailLog : LogEvent := ⟨.error, "Inference failed"⟩

/-- Logger call of cropper.py line 106. -/
def noDetectLog : LogEvent := ⟨.warning, "No object detected"⟩

/-- Lines 62-104 of cropper.py for a nonempty, already sorted detection list:
crop, filter empty crops, and either take the single crop, merge two or more,
or (all crops empty) keep the source image. -/
def panelFromSorted (resize : Image → ℕ → ℕ → Image) (img : Image)
    (sorted : List Det) : Image × List LogEvent :=
  let crops := survivingCropsOf img sorted
  if crops.length = 1 then (crops.headI, [procLog, detectLog])
  else if 2 ≤ crops.length then
    (hconcat (resizeCrops resize crops), [procLog, detectLog, mergeLog])
  else (img, [procLog, detectLog])

/-- crop_front_panel of src/src/plant_analysis/cropper.py. The decoded source
image is `img`; `detOut` is the outcome of the try-block
(`load_model(); model(image_path)`), either the detection boxes or the raised
exception; `resize` stands for `cv2.resize`. Returns the final image together
with the logger calls made. The legacy src/crop.py differs only in having no
try/except (a detector exception propagates) and in printing instead of
logging. -/
def crop_front_panel (resize : Image → ℕ → ℕ → Image) (img : Image)
    (detOut : Except PyExc (List Det)) : Image × List LogEvent :=
  match detOut with
  | .error _ => (img, [procLog, inferFailLog])
  | .ok dets =>
      if dets.isEmpty then (img, [procLog, noDetectLog])
      else panelFromSorted resize img (sortDets dets)

/-- A concrete executable stand-in for `cv2.resize` (nearest-neighbour grid
sampling), used to instantiate witnesses; the claims themselves hold for every
`resize` that returns an image of the requested shape. -/
def gridResize (c : Image) (w h : ℕ) : Image :=
  (List.range h).map (fun i =>
    (List.range w).map (fun j => (c.getD (i * imH c / h) []).getD (j * imW c / w) (0, 0, 0)))

/-- Modelled from the spec (section 4.1 step 1): a box whose clipped width or
clipped height is not positive, i.e. it collapses to zero area after clipping
against the image bounds. -/
abbrev clippedZeroArea (hI wI : ℕ) (d : Det) : Prop :=
  min (wI : ℤ) d.x2 - max 0 d.x1 ≤ 0 ∨ min (hI : ℤ) d.y2 - max 0 d.y1 ≤ 0

/-- Inclusive three-channel range membership, the predicate behind
`cv2.inRange(hsv, lower, upper)` for one pixel. -/
abbrev InRangeP (lo hi p : Pixel) : Prop :=
  lo.1 ≤ p.1 ∧ p.1 ≤ hi.1 ∧ lo.2.1 ≤ p.2.1 ∧ p.2.1 ≤ hi.2.1 ∧
    lo.2.2 ≤ p.2.2 ∧ p.2.2 ≤ hi.2.2

/-- The mask `cv2.inRange(hsv, lower, upper)`: 255 where the pixel is inside
the inclusive range on every channel, 0 elsewhere. -/
def inRange (lo hi : Pixel) (img : Image) : List (List ℕ) :=
  img.map (List.map (fun p => if InRangeP lo hi p then 255 else 0))

/-- The mask union `cv2.bitwise_or(green_mask, purple_mask)`. -/
def bitwiseOr (m1 m2 : List (List ℕ)) : List (List ℕ) :=
  List.zipWith (List.zipWith Nat.lor) m1 m2

/-- The count `cv2.countNonZero(plant_mask)`. -/
def countNonZero (m : List (List ℕ)) : ℕ :=
  (m.map (fun r => (r.filter (fun x => decide (x ≠ 0))).length)).sum

/-- Lines 92-111 of analyzer.py (equally lines 139-157 of plant_analysis.py):
convert to HSV, threshold both ranges, combine the masks, count, and divide.
`toHSV` stands for the external `cv2.cvtColor(img, cv2.COLOR_BGR2HSV)`
per-pixel conversion. -/
def calculate_plant_percentage (toHSV : Pixel → Pixel) (img : Image)
    (lowerGreen upperGreen lowerPurple upperPurple : Pixel) : ℚ :=
  let hsv := img.map (List.map toHSV)
  let greenMask := inRange lowerGreen upperGreen hsv
  let purpleMask := inRange lowerPurple upperPurple hsv
  let plantMask := bitwiseOr greenMask purpleMask
  let totalPixels := imH img * imW img
  let plantPixels := countNonZero plantMask
  if totalPixels = 0 then 0 else (plantPixels : ℚ) / (totalPixels : ℚ) * 100

/-- The matching-pixel count as the claim words it: pixels whose HSV channels
all lie within range A inclusively, or all within range B inclusively. -/
def specPlantCount (toHSV : Pixel → Pixel) (img : Image)
    (lowerGreen upperGreen lowerPurple upperPurple : Pixel) : ℕ :=
  (img.map (fun row =>
    (row.filter (fun p =>
      decide (InRangeP lowerGreen upperGreen (toHSV p) ∨
        InRangeP lowerPurple upperPurple (toHSV p)))).length)).sum

/-- OpenCV cvRound: round to nearest, ties to even. -/
def cvRound (q : ℚ) : ℤ :=
  if Int.fract q < 1 / 2 then ⌊q⌋
  else if 1 / 2 < Int.fract q then ⌊q⌋ + 1
  else if ⌊q⌋ % 2 = 0 then ⌊q⌋ else ⌊q⌋ + 1

/-- One sample of `cv2.convertScaleAbs(image, alpha, beta)`:
`saturate_cast_uint8(round(abs(alpha * v + beta)))` — absolute value first,
then saturation to [0, 255]. -/
def scaleAbsVal (alpha beta : ℚ) (v : ℕ) : ℕ :=
  (min (cvRound |alpha * (v : ℚ) + beta|) 255).toNat

/-- `cv2.convertScaleAbs` on one pixel: applied to every channel. -/
def scaleAbsPix (alpha beta : ℚ) (p : Pixel) : Pixel :=
  (scaleAbsVal alpha beta p.1, scaleAbsVal alpha beta p.2.1, scaleAbsVal alpha beta p.2.2)

/-- `cv2.convertScaleAbs(image, alpha, beta)` on a whole image. -/
def convertScaleAbs (img : Image) (alpha beta : ℚ) : Image :=
  img.map (List.map (scaleAbsPix alpha beta))

/-- Lines 26-50 of analyzer.py (equally lines 35-92 of plant_analysis.py):
`img_enhanced = cv2.convertScaleAbs(image, alpha=1.0+contrast, beta=brightness)`
followed by the saturation branch, taken only when `saturation != 1.0`; the
branch body (BGR/HSV round trip scaling the S channel) is the external
parameter `satAdjust`. -/
def enhance_image (satAdjust : Image → ℚ → Image) (img : Image)
    (brightness contrast saturation : ℚ) : Image :=
  let imgEnhanced := convertScaleAbs img (1 + contrast) brightness
  if saturation ≠ 1 then satAdjust imgEnhanced saturation else imgEnhanced

/-- An arbitrary concrete saturation adjuster for witnesses (never reached when
saturation = 1). -/
def satId : Image → ℚ → Image := fun im _ => im

/-- Modelled from the spec (section 4.2): the per-sample formula the claim
states for the enhancer, `clamp(value * (1 + contrast) + brightness, 0, 255)`. -/
def specClampVal (contrast brightness : ℚ) (v : ℕ) : ℚ :=
  max 0 (min ((v : ℚ) * (1 + contrast) + brightness) 255)

/-- Lines 132-136 of analyzer.py (equally lines 198-204 of plant_analysis.py):
the growth arithmetic of compare_images, taking the two already computed
coverage percentages and returning (absolute, relative) growth. -/
def compare_images (img1Percentage img2Percentage : ℚ) : ℚ × ℚ :=
  let absoluteGrowth := img2Percentage - img1Percentage
  let relativeGrowth :=
    if 0 < img1Percentage then absoluteGrowth / img1Percentage * 100 else 0
  (absoluteGrowth, relativeGrowth)

instance : IsAntisymm Det (fun a b => a.x1 < b.x1) :=
  ⟨fun _ _ h1 h2 => absurd (h1.trans h2) (lt_irrefl _)⟩

/-- A concrete 2 x 2 image with four distinct pixels, used in witnesses. -/
def img22 : Image := [[(0, 0, 0), (1, 1, 1)], [(2, 2, 2), (3, 3, 3)]]

theorem hconcat_cons_cons (c d : Image) (t : List Image) :
    hconcat (c :: d :: t) = List.zipWith (fun r s => r ++ s) c (hconcat (d :: t)) := rfl

theorem le_foldr_max {l : List ℕ} {a : ℕ} (ha : a ∈ l) : a ≤ l.foldr max 0 := by
  induction l with
  | nil => simp at ha
  | cons b t ih =>
      rcases List.mem_cons.mp ha with rfl | h
      · exact le_max_left _ _
      · exact le_trans (ih h) (le_max_right _ _)

theorem imH_pos_of_imSize_pos {c : Image} (h : 0 < imSize c) : 0 < imH c := by
  cases c with
  | nil => simp [imSize] at h
  | cons r t => simp [imH]

theorem size_pos_of_mem_survivingCropsOf {img : Image} {s : List Det} {c : Image}
    (hc : c ∈ survivingCropsOf img s) : 0 < imSize c := by
  simp only [survivingCropsOf, List.mem_filter, decide_eq_true_eq] at hc
  exact hc.2

theorem maxHeight_pos {crops : List Image} {c : Image} (hc : c ∈ crops) (h : 0 < imH c) :
    0 < maxHeight crops :=
  lt_of_lt_of_le h (le_foldr_max (List.mem_map_of_mem imH hc))

theorem imH_hconcat {l : List Image} {H : ℕ} (hall : ∀ c ∈ l, imH c = H) (hne : l ≠ []) :
    imH (hconcat l) = H := by
  induction l with
  | nil => exact absurd rfl hne
  | cons c rest ih =>
      cases rest with
      | nil => simpa using hall c (List.mem_cons_self c [])
      | cons d rest2 =>
          have h1 : imH c = H := hall c (List.mem_cons_self _ _)
          have h2 : imH (hconcat (d :: rest2)) = H :=
            ih (fun x hx => hall x (List.mem_cons_of_mem _ hx)) (List.cons_ne_nil _ _)
          rw [hconcat_cons_cons]
          simp only [imH, List.length_zipWith] at *
          omega

theorem imW_hconcat {l : List Image} {H : ℕ} (hall : ∀ c ∈ l, imH c = H) (hpos : 0 < H) :
    imW (hconcat l) = (l.map imW).sum := by
  induction l with
  | nil => simp [hconcat, imW]
  | cons c rest ih =>
      cases rest with
      | nil => simp [hconcat]
      | cons d rest2 =>
          have h1 : imH c = H := hall c (List.mem_cons_self _ _)
          have h2 : imH (hconcat (d :: rest2)) = H :=
            imH_hconcat (fun x hx => hall x (List.mem_cons_of_mem _ hx)) (List.cons_ne_nil _ _)
          have ihv := ih (fun x hx => hall x (List.mem_cons_of_mem _ hx))
          cases c with
          | nil => simp [imH] at h1; omega
          | cons r c2 =>
              rcases hE : hconcat (d :: rest2) with _ | ⟨s, E2⟩
              · rw [hE] at h2; simp [imH] at h2; omega
              · have hs : s.length = (List.map imW (d :: rest2)).sum := by
                  rw [hE] at ihv
                  simpa [imW] using ihv
                rw [hconcat_cons_cons, hE]
                simp only [List.map_cons, List.sum_cons] at hs ⊢
                simp only [List.zipWith_cons_cons, imW, List.head?_cons, Option.getD_some,
                  List.length_append] at hs ⊢
                omega

theorem imH_mem_resizeCrops {resize : Image → ℕ → ℕ → Image} {crops : List Image}
    (hres : ∀ c w h, 0 < h → imH (resize c w h) = h ∧ imW (resize c w h) = w)
    (hpos : 0 < maxHeight crops) {x : Image} (hx : x ∈ resizeCrops resize crops) :
    imH x = maxHeight crops := by
  simp only [resizeCrops, List.mem_map] at hx
  obtain ⟨c, hc, rfl⟩ := hx
  by_cases h : imH c = maxHeight crops
  · rw [if_pos h]; exact h
  · rw [if_neg h]; exact (hres c _ _ hpos).1

theorem map_imW_resizeCrops {resize : Image → ℕ → ℕ → Image} {crops : List Image}
    (hres : ∀ c w h, 0 < h → imH (resize c w h) = h ∧ imW (resize c w h) = w)
    (hpos : 0 < maxHeight crops) :
    (resizeCrops resize crops).map imW = crops.map (scaledWFinal (maxHeight crops)) := by
  simp only [resizeCrops, List.map_map]
  apply List.map_congr_left
  intro c hc
  by_cases h : imH c = maxHeight crops
  · simp [Function.comp, h, scaledWFinal]
  · simp [Function.comp, h, scaledWFinal, (hres c _ _ hpos).2]

theorem gridResize_dims (c : Image) (w h : ℕ) (hh : 0 < h) :
    imH (gridResize c w h) = h ∧ imW (gridResize c w h) = w := by
  constructor
  · simp [gridResize, imH]
  · obtain ⟨n, rfl⟩ := Nat.exists_eq_succ_of_ne_zero hh.ne'
    simp [gridResize, imW, List.range_succ_eq_map]

theorem crop_front_panel_ok_ne_nil {resize : Image → ℕ → ℕ → Image} {img : Image}
    {dets : List Det} (h : dets ≠ []) :
    crop_front_panel resize img (.ok dets) = panelFromSorted resize img (sortDets dets) := by
  cases dets with
  | nil => exact absurd rfl h
  | cons a l => rfl

theorem panelFromSorted_merge {resize : Image → ℕ → ℕ → Image} {img : Image}
    {sorted : List Det} (h2 : 2 ≤ (survivingCropsOf img sorted).length) :
    panelFromSorted resize img sorted
      = (hconcat (resizeCrops resize (survivingCropsOf img sorted)),
          [procLog, detectLog, mergeLog]) := by
  unfold panelFromSorted
  rw [if_neg (by omega), if_pos h2]

theorem sortDets_perm (dets : List Det) : List.Perm (sortDets dets) dets :=
  List.perm_insertionSort detLe dets

theorem sortDets_sorted (dets : List Det) : List.Sorted detLe (sortDets dets) :=
  List.sorted_insertionSort detLe dets

theorem sortDets_pairwise_clipX1 (dets : List Det) :
    (sortDets dets).Pairwise (fun a b => clipX1 a ≤ clipX1 b) :=
  (sortDets_sorted dets).imp (fun h => max_le_max le_rfl h)

/-- C3: with two or more surviving (positive-size) crops, the stitched output
of crop_front_panel has height equal to the maximum crop height, width equal to
the sum of the per-crop scaled widths, and is the left-to-right concatenation
of the crops taken in an order that is a permutation of the detections and
nondecreasing in the clipped left edge. -/
theorem C3_panel_stitch_shape (resize : Image → ℕ → ℕ → Image) (img : Image) (dets : List Det)
    (hres : ∀ c w h, 0 < h → imH (resize c w h) = h ∧ imW (resize c w h) = w)
    (h2 : 2 ≤ (survivingCrops img dets).length) :
    imH (crop_front_panel resize img (.ok dets)).1 = maxHeight (survivingCrops img dets) ∧
    imW (crop_front_panel resize img (.ok dets)).1
      = ((survivingCrops img dets).map (scaledWFinal (maxHeight (survivingCrops img dets)))).sum ∧
    (crop_front_panel resize img (.ok dets)).1
      = hconcat (resizeCrops resize (survivingCrops img dets)) ∧
    List.Perm (sortDets dets) dets ∧
    (sortDets dets).Pairwise (fun a b => clipX1 a ≤ clipX1 b) := by
  have hne : dets ≠ [] := by
    rintro rfl
    simp [survivingCrops, survivingCropsOf, sortDets, List.insertionSort] at h2
  have hcrops : survivingCrops img dets = survivingCropsOf img (sortDets dets) := rfl
  rw [hcrops] at h2 ⊢
  rw [crop_front_panel_ok_ne_nil hne, panelFromSorted_merge h2]
  set crops := survivingCropsOf img (sortDets dets) with hcdef
  have hcne : crops ≠ [] := by
    intro h
    rw [h] at h2
    simp at h2
  obtain ⟨c0, hc0⟩ : ∃ c, c ∈ crops := List.exists_mem_of_ne_nil crops hcne
  have hpos : 0 < maxHeight crops :=
    maxHeight_pos hc0 (imH_pos_of_imSize_pos (size_pos_of_mem_survivingCropsOf hc0))
  have hallH : ∀ x ∈ resizeCrops resize crops, imH x = maxHeight crops :=
    fun x hx => imH_mem_resizeCrops hres hpos hx
  have hrne : resizeCrops resize crops ≠ [] := by
    simp only [resizeCrops]
    intro h
    exact hcne (List.map_eq_nil_iff.mp h)
  refine ⟨imH_hconcat hallH hrne, ?_, rfl, sortDets_perm dets, sortDets_pairwise_clipX1 dets⟩
  rw [imW_hconcat hallH hpos, map_imW_resizeCrops hres hpos]

/-- C3 witness: the stitch-shape theorem instantiated at a concrete image with
two side-by-side unit-width detections. -/
theorem C3_panel_stitch_shape_witness :
    2 ≤ (survivingCrops img22 [⟨0, 0, 1, 2⟩, ⟨1, 0, 2, 2⟩]).length ∧
    (imH (crop_front_panel gridResize img22 (.ok [⟨0, 0, 1, 2⟩, ⟨1, 0, 2, 2⟩])).1
        = maxHeight (survivingCrops img22 [⟨0, 0, 1, 2⟩, ⟨1, 0, 2, 2⟩]) ∧
      imW (crop_front_panel gridResize img22 (.ok [⟨0, 0, 1, 2⟩, ⟨1, 0, 2, 2⟩])).1
        = ((survivingCrops img22 [⟨0, 0, 1, 2⟩, ⟨1, 0, 2, 2⟩]).map
            (scaledWFinal (maxHeight (survivingCrops img22 [⟨0, 0, 1, 2⟩, ⟨1, 0, 2, 2⟩])))).sum ∧
      (crop_front_panel gridResize img22 (.ok [⟨0, 0, 1, 2⟩, ⟨1, 0, 2, 2⟩])).1
        = hconcat (resizeCrops gridResize (survivingCrops img22 [⟨0, 0, 1, 2⟩, ⟨1, 0, 2, 2⟩])) ∧
      List.Perm (sortDets [⟨0, 0, 1, 2⟩, ⟨1, 0, 2, 2⟩]) [⟨0, 0, 1, 2⟩, ⟨1, 0, 2, 2⟩] ∧
      (sortDets [⟨0, 0, 1, 2⟩, ⟨1, 0, 2, 2⟩]).Pairwise (fun a b => clipX1 a ≤ clipX1 b)) :=
  ⟨by decide, C3_panel_stitch_shape gridResize img22 [⟨0, 0, 1, 2⟩, ⟨1, 0, 2, 2⟩]
    (fun c w h hh => gridResize_dims c w h hh) (by decide)⟩

theorem sortDets_eq_of_perm {d1 d2 : List Det}
    (hd : d1.Pairwise (fun a b => a.x1 ≠ b.x1)) (hp : List.Perm d1 d2) :
    sortDets d1 = sortDets d2 := by
  have hs1 := sortDets_sorted d1
  have hs2 := sortDets_sorted d2
  have hp1 := sortDets_perm d1
  have hp2 := sortDets_perm d2
  have hperm : List.Perm (sortDets d1) (sortDets d2) := (hp1.trans hp).trans hp2.symm
  have hsymm : ∀ {x y : Det}, x.x1 ≠ y.x1 → y.x1 ≠ x.x1 := fun h => Ne.symm h
  have hd1 : (sortDets d1).Pairwise (fun a b => a.x1 ≠ b.x1) :=
    (hp1.pairwise_iff hsymm).mpr hd
  have hd2 : (sortDets d2).Pairwise (fun a b => a.x1 ≠ b.x1) :=
    (hp2.pairwise_iff hsymm).mpr ((hp.pairwise_iff hsymm).mp hd)
  have hlt1 : (sortDets d1).Pairwise (fun a b => a.x1 < b.x1) :=
    (hs1.and hd1).imp (fun h => lt_of_le_of_ne h.1 h.2)
  have hlt2 : (sortDets d2).Pairwise (fun a b => a.x1 < b.x1) :=
    (hs2.and hd2).imp (fun h => lt_of_le_of_ne h.1 h.2)
  exact List.eq_of_perm_of_sorted hperm hlt1 hlt2

/-- C5 (amended): when the detections have pairwise distinct left edges,
crop_front_panel gives the identical output for every permutation of the
detection list. -/
theorem C5_perm_invariance (resize : Image → ℕ → ℕ → Image) (img : Image)
    (d1 d2 : List Det) (hd : d1.Pairwise (fun a b => a.x1 ≠ b.x1))
    (hp : List.Perm d1 d2) :
    crop_front_panel resize img (.ok d1) = crop_front_panel resize img (.ok d2) := by
  cases d1 with
  | nil =>
      have : d2 = [] := hp.symm.eq_nil
      rw [this]
  | cons a l =>
      have hne2 : d2 ≠ [] := by
        intro h
        rw [h] at hp
        exact List.cons_ne_nil a l hp.eq_nil
      rw [crop_front_panel_ok_ne_nil (List.cons_ne_nil a l),
        crop_front_panel_ok_ne_nil hne2, sortDets_eq_of_perm hd hp]

/-- C5 witness: the permutation-invariance theorem at two distinct-left-edge
detections supplied in both orders. -/
theorem C5_perm_invariance_witness :
    ([⟨1, 0, 2, 2⟩, ⟨0, 0, 1, 2⟩] : List Det).Pairwise (fun a b => a.x1 ≠ b.x1) ∧
    List.Perm ([⟨1, 0, 2, 2⟩, ⟨0, 0, 1, 2⟩] : List Det) [⟨0, 0, 1, 2⟩, ⟨1, 0, 2, 2⟩] ∧
    crop_front_panel gridResize img22 (.ok [⟨1, 0, 2, 2⟩, ⟨0, 0, 1, 2⟩])
      = crop_front_panel gridResize img22 (.ok [⟨0, 0, 1, 2⟩, ⟨1, 0, 2, 2⟩]) :=
  ⟨by decide, by decide,
    C5_perm_invariance gridResize img22 _ _ (by decide) (by decide)⟩

/-- C5 counterexample: two detections sharing the left edge x1 = 0; swapping
their order changes the stitched output, so the claim as stated (identical
output for every permutation) is false. -/
theorem C5_counterexample :
    List.Perm ([⟨0, 1, 2, 2⟩, ⟨0, 0, 2, 1⟩] : List Det) [⟨0, 0, 2, 1⟩, ⟨0, 1, 2, 2⟩] ∧
    crop_front_panel gridResize img22 (.ok [⟨0, 0, 2, 1⟩, ⟨0, 1, 2, 2⟩])
      ≠ crop_front_panel gridResize img22 (.ok [⟨0, 1, 2, 2⟩, ⟨0, 0, 2, 1⟩]) := by
  constructor
  · decide
  · decide

/-- C8 (code evaluated at the failing input): the box (-5, 0, -1, 2) clips to
zero area against the 2 x 2 image, yet crop_front_panel does not return the
source image: the negative stop index min(w, x2) = -1 wraps around in the
numpy slice and produces a nonempty crop. -/
theorem C8_zero_area_box_not_identity :
    clippedZeroArea (imH img22) (imW img22) ⟨-5, 0, -1, 2⟩ ∧
    (crop_front_panel gridResize img22 (.ok [⟨-5, 0, -1, 2⟩])).1 ≠ img22 := by
  constructor
  · decide
  · decide

/-- C8 (the part of the claim that does hold): with zero detections the output
is pixel-identical to the source image and a warning, not an error, is logged. -/
theorem C8_no_detection_identity (resize : Image → ℕ → ℕ → Image) (img : Image) :
    (crop_front_panel resize img (.ok [])).1 = img ∧
    (crop_front_panel resize img (.ok [])).2 = [procLog, noDetectLog] := ⟨rfl, rfl⟩

/-- C9: when the model weights are missing, load_model raises
FileNotFoundError inside the try-block of crop_front_panel; the blanket
except-branch absorbs it and falls back to the unmodified source image with an
error log, instead of surfacing it to the caller. -/
theorem C9_missing_weights_absorbed (resize : Image → ℕ → ℕ → Image) (img : Image) :
    crop_front_panel resize img (.error .fileNotFound) = (img, [procLog, inferFailLog]) := rfl

/-- C6 counterexample: at a failing inference the returned image is the
unmodified source, but the condition is logged at error level and no
warning-level event is emitted, refuting the claim that only a warning is
reported. -/
theorem C6_counterexample :
    (crop_front_panel gridResize img22 (.error .inferenceError)).1 = img22 ∧
    (∀ e ∈ (crop_front_panel gridResize img22 (.error .inferenceError)).2,
      e.level ≠ LogLevel.warning) ∧
    (∃ e ∈ (crop_front_panel gridResize img22 (.error .inferenceError)).2,
      e.level = LogLevel.error) := by
  refine ⟨rfl, ?_, ?_⟩
  · decide
  · decide

/-- C6 (amended): whenever the detector call fails, crop_front_panel returns
the unmodified source image and logs the failure at error level; the failure
is not propagated. -/
theorem C6_inference_failure_fallback (resize : Image → ℕ → ℕ → Image) (img : Image)
    (e : PyExc) :
    (crop_front_panel resize img (.error e)).1 = img ∧
    inferFailLog ∈ (crop_front_panel resize img (.error e)).2 ∧
    ∀ ev ∈ (crop_front_panel resize img (.error e)).2, ev.level ≠ LogLevel.warning := by
  refine ⟨rfl, by simp [crop_front_panel], ?_⟩
  intro ev hev
  simp only [crop_front_panel, List.mem_cons, List.mem_singleton] at hev
  rcases hev with rfl | hev
  · decide
  · rcases hev with rfl | hev
    · decide
    · simp at hev

/-- C4 counterexample: for a crop of width 1 and height 3 scaled to the common
height 5, the code computes int(1 * (5/3)) = 1, while rounding 5/3 to the
nearest integer gives 2, so the new width is not the nearest-integer rounding
the claim states. -/
theorem C4_counterexample :
    scaledW 1 3 5 = 1 ∧ round ((1 : ℚ) * ((5 : ℚ) / 3)) = 2 := by
  constructor
  · rfl
  · rw [show (1 : ℚ) * ((5 : ℚ) / 3) = 5 / 3 by ring, round_eq,
      show (5 / 3 + 1 / 2 : ℚ) = 13 / 6 by ring]
    rw [Int.floor_eq_iff]
    norm_num

/-- C4 (amended): the new width of a rescaled crop is the floor (Python int
truncation) of w * (H / h), and it is at least 1. -/
theorem C4_scaled_width_floor (w h H : ℕ) (hw : 1 ≤ w) (hh : 1 ≤ h) (hH : h < H) :
    (scaledW w h H : ℤ) = ⌊(w : ℚ) * ((H : ℚ) / (h : ℚ))⌋ ∧ 1 ≤ scaledW w h H := by
  constructor
  · have heq : (w : ℚ) * ((H : ℚ) / (h : ℚ)) = ((w * H : ℕ) : ℚ) / ((h : ℕ) : ℚ) := by
      push_cast
      ring
    rw [heq, Rat.floor_natCast_div_natCast]
    exact Int.natCast_div _ _
  · rw [scaledW, Nat.one_le_div_iff hh]
    calc h ≤ H := le_of_lt hH
    _ ≤ w * H := Nat.le_mul_of_pos_left H hw

/-- C4 witness: the amended scaled-width theorem at w = 1, h = 3, H = 5. -/
theorem C4_scaled_width_floor_witness :
    (1 ≤ 1 ∧ 1 ≤ 3 ∧ 3 < 5) ∧
    ((scaledW 1 3 5 : ℤ) = ⌊(1 : ℚ) * ((5 : ℚ) / (3 : ℚ))⌋ ∧ 1 ≤ scaledW 1 3 5) :=
  ⟨⟨le_refl 1, by decide, by decide⟩,
    C4_scaled_width_floor 1 3 5 (le_refl 1) (by decide) (by decide)⟩

/-- C7: compare_images returns absolute growth after minus before; relative
growth is absolute over before times 100 when before is positive, and exactly
0 when before is 0, with no division fault (division is total here). -/
theorem C7_growth_arithmetic (before after : ℚ) (h0 : 0 ≤ before) (h100 : before ≤ 100)
    (ha0 : 0 ≤ after) (ha100 : after ≤ 100) :
    (compare_images before after).1 = after - before ∧
    (0 < before → (compare_images before after).2 = (after - before) / before * 100) ∧
    (before = 0 → (compare_images before after).2 = 0) := by
  refine ⟨rfl, fun h => ?_, fun h => ?_⟩
  · simp [compare_images, if_pos h]
  · simp [compare_images, h]

/-- C7 witness: the growth arithmetic at before = 10, after = 30. -/
theorem C7_growth_arithmetic_witness :
    ((0 : ℚ) ≤ 10 ∧ (10 : ℚ) ≤ 100 ∧ (0 : ℚ) ≤ 30 ∧ (30 : ℚ) ≤ 100) ∧
    ((compare_images 10 30).1 = 30 - 10 ∧
      (0 < (10 : ℚ) → (compare_images 10 30).2 = (30 - 10) / 10 * 100) ∧
      ((10 : ℚ) = 0 → (compare_images 10 30).2 = 0)) :=
  ⟨⟨by norm_num, by norm_num, by norm_num, by norm_num⟩,
    C7_growth_arithmetic 10 30 (by norm_num) (by norm_num) (by norm_num) (by norm_num)⟩

theorem lor_mask_ne_zero_iff (a b : Prop) [Decidable a] [Decidable b] :
    Nat.lor (if a then 255 else 0) (if b then 255 else 0) ≠ 0 ↔ a ∨ b := by
  by_cases ha : a <;> by_cases hb : b <;> simp [ha, hb] <;> decide

theorem row_count_lor (toHSV : Pixel → Pixel) (lg ug lp up : Pixel) (row : List Pixel) :
    ((List.zipWith Nat.lor
        ((row.map toHSV).map (fun p => if InRangeP lg ug p then 255 else 0))
        ((row.map toHSV).map (fun p => if InRangeP lp up p then 255 else 0))).filter
          (fun x => decide (x ≠ 0))).length
      = (row.filter (fun p =>
          decide (InRangeP lg ug (toHSV p) ∨ InRangeP lp up (toHSV p)))).length := by
  induction row with
  | nil => rfl
  | cons p s ih =>
      simp only [List.map_cons, List.zipWith_cons_cons, List.filter_cons,
        decide_eq_true_eq, lor_mask_ne_zero_iff]
      by_cases h : InRangeP lg ug (toHSV p) ∨ InRangeP lp up (toHSV p)
      · simp only [if_pos h, List.length_cons, ih]
      · simp only [if_neg h, ih]

theorem countNonZero_plant_mask (toHSV : Pixel → Pixel) (img : Image) (lg ug lp up : Pixel) :
    countNonZero (bitwiseOr (inRange lg ug (img.map (List.map toHSV)))
        (inRange lp up (img.map (List.map toHSV))))
      = specPlantCount toHSV img lg ug lp up := by
  unfold countNonZero bitwiseOr inRange specPlantCount
  induction img with
  | nil => rfl
  | cons row t ih =>
      simp only [List.map_cons, List.zipWith_cons_cons, List.sum_cons]
      rw [row_count_lor toHSV lg ug lp up row, ih]

theorem specPlantCount_le (toHSV : Pixel → Pixel) (img : Image) (lg ug lp up : Pixel)
    (hrect : IsRect img) :
    specPlantCount toHSV img lg ug lp up ≤ imH img * imW img := by
  unfold specPlantCount
  have h1 : ∀ row ∈ img,
      (row.filter (fun p =>
        decide (InRangeP lg ug (toHSV p) ∨ InRangeP lp up (toHSV p)))).length
        ≤ imW img := by
    intro row hrow
    exact le_of_le_of_eq (List.length_filter_le _ _) (hrect row hrow)
  calc (img.map (fun row => (row.filter (fun p =>
          decide (InRangeP lg ug (toHSV p) ∨ InRangeP lp up (toHSV p)))).length)).sum
      ≤ (img.map (fun _ => imW img)).sum := List.sum_le_sum h1
    _ = imH img * imW img := by
        rw [List.map_const', List.sum_replicate, smul_eq_mul]
        rfl

/-- C1: calculate_plant_percentage returns the count of pixels whose HSV
channels all lie inclusively in the green range or all in the purple range,
divided by the total pixel count and multiplied by 100; the result lies in
[0, 100], and it is 0 when the total pixel count is 0. -/
theorem C1_coverage_formula (toHSV : Pixel → Pixel) (img : Image) (lg ug lp up : Pixel)
    (hrect : IsRect img) :
    calculate_plant_percentage toHSV img lg ug lp up
        = (if imH img * imW img = 0 then 0
            else (specPlantCount toHSV img lg ug lp up : ℚ)
              / ((imH img * imW img : ℕ) : ℚ) * 100) ∧
    0 ≤ calculate_plant_percentage toHSV img lg ug lp up ∧
    calculate_plant_percentage toHSV img lg ug lp up ≤ 100 := by
  have hform : calculate_plant_percentage toHSV img lg ug lp up
      = (if imH img * imW img = 0 then 0
          else (specPlantCount toHSV img lg ug lp up : ℚ)
            / ((imH img * imW img : ℕ) : ℚ) * 100) := by
    simp only [calculate_plant_percentage]
    rw [countNonZero_plant_mask toHSV img lg ug lp up]
  refine ⟨hform, ?_, ?_⟩
  · rw [hform]
    split
    · exact le_refl 0
    · positivity
  · rw [hform]
    split
    · norm_num
    · rename_i htot
      have hle := specPlantCount_le toHSV img lg ug lp up hrect
      have hpos : (0 : ℚ) < ((imH img * imW img : ℕ) : ℚ) := by
        have := Nat.pos_of_ne_zero htot
        exact_mod_cast this
      have hdiv : (specPlantCount toHSV img lg ug lp up : ℚ)
          / ((imH img * imW img : ℕ) : ℚ) ≤ 1 := by
        rw [div_le_one hpos]
        exact_mod_cast hle
      calc (specPlantCount toHSV img lg ug lp up : ℚ)
            / ((imH img * imW img : ℕ) : ℚ) * 100
          ≤ 1 * 100 := mul_le_mul_of_nonneg_right hdiv (by norm_num)
        _ = 100 := one_mul 100

/-- C1 witness: the coverage formula at a concrete 1 x 2 image (identity HSV
conversion) with the configured green and purple ranges. -/
theorem C1_coverage_formula_witness :
    IsRect [[(40, 40, 40), (0, 0, 0)]] ∧
    (calculate_plant_percentage id [[(40, 40, 40), (0, 0, 0)]]
          (35, 40, 40) (85, 255, 255) (125, 40, 40) (155, 255, 255)
        = (if imH [[(40, 40, 40), (0, 0, 0)]] * imW [[(40, 40, 40), (0, 0, 0)]] = 0 then 0
            else (specPlantCount id [[(40, 40, 40), (0, 0, 0)]]
                (35, 40, 40) (85, 255, 255) (125, 40, 40) (155, 255, 255) : ℚ)
              / ((imH [[(40, 40, 40), (0, 0, 0)]] * imW [[(40, 40, 40), (0, 0, 0)]] : ℕ) : ℚ)
              * 100) ∧
      0 ≤ calculate_plant_percentage id [[(40, 40, 40), (0, 0, 0)]]
          (35, 40, 40) (85, 255, 255) (125, 40, 40) (155, 255, 255) ∧
      calculate_plant_percentage id [[(40, 40, 40), (0, 0, 0)]]
          (35, 40, 40) (85, 255, 255) (125, 40, 40) (155, 255, 255) ≤ 100) :=
  ⟨by decide, C1_coverage_formula id [[(40, 40, 40), (0, 0, 0)]]
    (35, 40, 40) (85, 255, 255) (125, 40, 40) (155, 255, 255) (by decide)⟩

theorem enhance_image_sat_one (satAdjust : Image → ℚ → Image) (img : Image) (b c : ℚ) :
    enhance_image satAdjust img b c 1 = convertScaleAbs img (1 + c) b := by
  simp [enhance_image]

theorem imW_map_map (f : Pixel → Pixel) (img : Image) :
    imW (img.map (List.map f)) = imW img := by
  cases img with
  | nil => rfl
  | cons r t => simp [imW]

theorem getD_convertScaleAbs (img : Image) (alpha beta : ℚ) (i j : ℕ)
    (hi : i < imH img) (hj : j < (img.getD i []).length) :
    ((convertScaleAbs img alpha beta).getD i []).getD j (0, 0, 0)
      = scaleAbsPix alpha beta ((img.getD i []).getD j (0, 0, 0)) := by
  have hrow : (convertScaleAbs img alpha beta).getD i []
      = List.map (scaleAbsPix alpha beta) (img.getD i []) := by
    unfold convertScaleAbs
    rw [List.getD_eq_getElem?_getD, List.getElem?_map,
      List.getElem?_eq_getElem hi, List.getD_eq_getElem?_getD,
      List.getElem?_eq_getElem hi]
    rfl
  have hx : (img.getD i []).getD j (0, 0, 0) = (img.getD i []).get ⟨j, hj⟩ := by
    rw [List.getD_eq_getElem?_getD, List.getElem?_eq_getElem hj]
    rfl
  rw [hrow, hx, List.getD_eq_getElem?_getD, List.getElem?_map,
    List.getElem?_eq_getElem hj]
  rfl

/-- C2 counterexample: with brightness -50, contrast 0 (saturation 1), the
channel value 0 is mapped by the code to abs(0 - 50) = 50, while the clamp
formula of the claim yields 0; the enhancer reflects negative results instead
of clamping them at 0. -/
theorem cvRound_intCast (n : ℤ) : cvRound ((n : ℚ)) = n := by
  norm_num [cvRound, Int.fract_intCast, Int.floor_intCast]

theorem scaleAbsVal_neg50 : scaleAbsVal 1 (-50) 0 = 50 := by
  have h1 : (1 : ℚ) * ((0 : ℕ) : ℚ) + (-50) = ((-50 : ℤ) : ℚ) := by norm_num
  have h2 : |((-50 : ℤ) : ℚ)| = ((50 : ℤ) : ℚ) := by norm_num
  rw [scaleAbsVal, h1, h2, cvRound_intCast]
  rfl

theorem C2_counterexample :
    enhance_image satId [[(0, 0, 0)]] (-50) 0 1 = [[(50, 50, 50)]] ∧
    specClampVal 0 (-50) 0 = 0 ∧ (50 : ℕ) ≠ 0 := by
  refine ⟨?_, ?_, by decide⟩
  · rw [enhance_image_sat_one]
    simp [convertScaleAbs, scaleAbsPix, scaleAbsVal_neg50]
  · have h1 : ((0 : ℕ) : ℚ) * (1 + 0) + (-50) = -50 := by norm_num
    rw [specClampVal, h1]
    norm_num

/-- C2 (amended): with saturation 1, enhance_image preserves the image
dimensions and maps every sample v of every channel to
min(round(abs(v * (1 + contrast) + brightness)), 255) — absolute value
followed by saturation at 255, not a clamp below at 0. -/
theorem C2_enhance_formula (satAdjust : Image → ℚ → Image) (img : Image) (b c : ℚ) :
    imH (enhance_image satAdjust img b c 1) = imH img ∧
    imW (enhance_image satAdjust img b c 1) = imW img ∧
    ∀ i j, i < imH img → j < (img.getD i []).length →
      ((enhance_image satAdjust img b c 1).getD i []).getD j (0, 0, 0)
        = scaleAbsPix (1 + c) b ((img.getD i []).getD j (0, 0, 0)) := by
  rw [enhance_image_sat_one]
  refine ⟨by simp [convertScaleAbs, imH], imW_map_map _ img, ?_⟩
  intro i j hi hj
  exact getD_convertScaleAbs img (1 + c) b i j hi hj

/-- C2 witness: the amended per-sample formula evaluated at a one-pixel image
with brightness -50. -/
theorem C2_enhance_formula_witness :
    (0 < imH [[(0, 0, 0)]] ∧ 0 < (([[(0, 0, 0)]] : Image).getD 0 []).length) ∧
    ((enhance_image satId [[(0, 0, 0)]] (-50) 0 1).getD 0 []).getD 0 (0, 0, 0)
      = scaleAbsPix (1 + 0) (-50) ((([[(0, 0, 0)]] : Image).getD 0 []).getD 0 (0, 0, 0)) :=
  ⟨⟨by decide, by decide⟩,
    (C2_enhance_formula satId [[(0, 0, 0)]] (-50) 0).2.2 0 0 (by decide) (by decide)⟩

theorem cvRound_natCast (n : ℕ) : cvRound ((n : ℚ)) = n := by
  have h : ((n : ℚ)) = (((n : ℤ) : ℚ)) := by push_cast; rfl
  rw [h, cvRound_intCast]

theorem scaleAbsVal_one_zero (v : ℕ) (hv : v ≤ 255) : scaleAbsVal 1 0 v = v := by
  have h1 : (1 : ℚ) * (v : ℚ) + 0 = (v : ℚ) := by ring
  have h2 : |(v : ℚ)| = (v : ℚ) := abs_of_nonneg (by positivity)
  rw [scaleAbsVal, h1, h2, cvRound_natCast]
  have h3 : min ((v : ℤ)) 255 = (v : ℤ) := min_eq_left (by exact_mod_cast hv)
  rw [h3]
  exact Int.toNat_natCast v

theorem scaleAbsPix_id (p : Pixel) (h1 : p.1 ≤ 255) (h2 : p.2.1 ≤ 255) (h3 : p.2.2 ≤ 255) :
    scaleAbsPix 1 0 p = p := by
  obtain ⟨a, b, c⟩ := p
  simp only [scaleAbsPix]
  rw [scaleAbsVal_one_zero a h1, scaleAbsVal_one_zero b h2, scaleAbsVal_one_zero c h3]

theorem convertScaleAbs_id (img : Image)
    (hb : ∀ r ∈ img, ∀ p ∈ r, p.1 ≤ 255 ∧ p.2.1 ≤ 255 ∧ p.2.2 ≤ 255) :
    convertScaleAbs img 1 0 = img := by
  unfold convertScaleAbs
  induction img with
  | nil => rfl
  | cons r t ih =>
      simp only [List.map_cons, List.cons.injEq]
      constructor
      · have hr := hb r (List.mem_cons_self r t)
        calc List.map (scaleAbsPix 1 0) r
            = List.map id r := List.map_congr_left (fun p hp =>
              scaleAbsPix_id p (hr p hp).1 (hr p hp).2.1 (hr p hp).2.2)
          _ = r := List.map_id r
      · exact ih (fun r2 h2 => hb r2 (List.mem_cons_of_mem _ h2))

/-- C10: with the default parameters brightness 0, contrast 0, saturation 1,
enhance_image returns the input image pixel for pixel (for any saturation
adjuster, since the saturation branch is skipped), provided every channel
value is a valid uint8 value at most 255. -/
theorem C10_default_params_identity (satAdjust : Image → ℚ → Image) (img : Image)
    (hb : ∀ r ∈ img, ∀ p ∈ r, p.1 ≤ 255 ∧ p.2.1 ≤ 255 ∧ p.2.2 ≤ 255) :
    enhance_image satAdjust img 0 0 1 = img := by
  rw [enhance_image_sat_one]
  have h : (1 + 0 : ℚ) = 1 := by norm_num
  rw [h]
  exact convertScaleAbs_id img hb

/-- C10 witness: the default-parameter identity at a concrete image. -/
theorem C10_default_params_identity_witness :
    (∀ r ∈ ([[(0, 100, 255)], [(3, 4, 5)]] : Image), ∀ p ∈ r,
      p.1 ≤ 255 ∧ p.2.1 ≤ 255 ∧ p.2.2 ≤ 255) ∧
    enhance_image satId [[(0, 100, 255)], [(3, 4, 5)]] 0 0 1
      = [[(0, 100, 255)], [(3, 4, 5)]] :=
  ⟨by decide, C10_default_params_identity satId [[(0, 100, 255)], [(3, 4, 5)]] (by decide)⟩
